import Mathlib

/-!
# Shallow embedding of `cache_sim.cpp` (CoffeeBeforeArch/simple_cache_sim)

This file embeds the second (complete) `CacheSim` class of `src/cache_sim.cpp`:
the constructor, `probe`, `get_set`, `get_tag`, `update_stats` and the trace
loop `run`.  Machine integers are modelled as `Nat`/`Int`: addresses are
64-bit unsigned values (callers pass values `< 2^64`; the only operations
performed on them are right shifts and masking, which agree with `Nat`
arithmetic on such values), the `priority` entries are C++ `int`s that the
code only ever sets to `0` or increments while `< associativity`, so they
stay non-negative and are modelled as `Nat`.  The statistics counters are
`std::int64_t` and are modelled as `Int` (their values in any run are far
below `2^63`, so no wrap-around is modelled).
-/

/-- Fuelled halving loop computing the number of set bits of `n`; the fuel
only forces structural recursion and is irrelevant once `n ≤ fuel`. -/
def popcountAux : Nat → Nat → Nat
  | 0, _ => 0
  | fuel + 1, n => if n = 0 then 0 else popcountAux fuel (n / 2) + n % 2

/-- Population count, the model of `std::__popcount` used by the constructor
on `block_size - 1` and on `set_mask` (both non-negative). -/
def popcount (n : Nat) : Nat := popcountAux n n

/-- The cache-simulator state: the fields of class `CacheSim`
(`src/cache_sim.cpp`, lines 189-217), minus the `std::ifstream` handle,
which only feeds the trace loop and carries no cache state. -/
structure CacheSim where
  block_size : Nat
  associativity : Nat
  capacity : Nat
  miss_penalty : Nat
  dirty_wb_penalty : Nat
  set_offset : Nat
  tag_offset : Nat
  set_mask : Nat
  tags : List Nat
  dirty : List Bool
  valid : List Bool
  priority : List Nat
  writes_ : Int
  mem_accesses_ : Int
  misses_ : Int
  dirty_wb_ : Int
  instructions_ : Int
  cycles_ : Int
deriving Repr, DecidableEq

/-- The constructor `CacheSim::CacheSim` (lines 127-165): stores the
settings, sizes the four state vectors to `capacity / block_size`
zero-initialised entries (`std::vector::resize` value-initialises), and
derives the address-decomposition parameters with `std::__popcount`.
No validation of the configuration is performed ("Assume this divides
evenly", line 141). -/
def CacheSim.init (bs a c mp wbp : Nat) : CacheSim :=
  let num_blocks := c / bs
  let block_bits := popcount (bs - 1)
  let sets := c / (bs * a)
  let set_mask := sets - 1
  let set_bits := popcount set_mask
  { block_size := bs
    associativity := a
    capacity := c
    miss_penalty := mp
    dirty_wb_penalty := wbp
    set_offset := block_bits
    tag_offset := block_bits + set_bits
    set_mask := set_mask
    tags := List.replicate num_blocks 0
    dirty := List.replicate num_blocks false
    valid := List.replicate num_blocks false
    priority := List.replicate num_blocks 0
    writes_ := 0
    mem_accesses_ := 0
    misses_ := 0
    dirty_wb_ := 0
    instructions_ := 0
    cycles_ := 0 }

/-- `CacheSim::get_set` (lines 338-341): shift the set field down, mask. -/
def CacheSim.get_set (s : CacheSim) (address : Nat) : Nat :=
  (address >>> s.set_offset) &&& s.set_mask

/-- `CacheSim::get_tag` (lines 346-349): shift the tag field down. -/
def CacheSim.get_tag (s : CacheSim) (address : Nat) : Nat :=
  address >>> s.tag_offset

/-- The scan loop of `CacheSim::probe` (lines 281-296), over the probed
set's `(valid, tag)` pairs in slot order, with `i` the running slot index
and `inv` the invalid slot recorded so far.  An invalid slot overwrites
`inv` (`invalid_index = i`) and the scan continues; a valid slot whose tag
differs is skipped; a valid slot with a matching tag stops the scan as a
hit.  Returns `(hit slot, recorded invalid slot)`. -/
def scanLines (tag : Nat) : List (Bool × Nat) → Nat → Option Nat → Option Nat × Option Nat
  | [], _, inv => (none, inv)
  | (v, t) :: rest, i, inv =>
    if v = false then scanLines tag rest (i + 1) (some i)
    else if t = tag then (some i, inv)
    else scanLines tag rest (i + 1) inv

/-- The body of `std::ranges::max_element` (line 305): walk the remaining
elements keeping the first maximum seen, as an index/value pair; a later
element replaces the current best only when strictly greater. -/
def maxElemFrom (best bestVal i : Nat) : List Nat → Nat × Nat
  | [] => (best, bestVal)
  | x :: rest =>
    if bestVal < x then maxElemFrom i x (i + 1) rest
    else maxElemFrom best bestVal (i + 1) rest

/-- Index of the first maximum of a list (`std::distance(begin, max_element)`,
lines 305-306).  On the empty span `max_element` returns `end` and the
distance is `0`; with `associativity ≥ 1` the span is never empty. -/
def firstMaxIdx : List Nat → Nat
  | [] => 0
  | x :: rest => (maxElemFrom 0 x 1 rest).1

/-- Lines 277-307 of `CacheSim::probe`: the scan picks a hit slot if the
tag matches a valid line; otherwise the recorded invalid slot is used if
one exists (`if (invalid_index >= 0) index = invalid_index`), else the
first slot of maximal priority.  Returns `(hit, index)`. -/
def chooseIndex (tag : Nat) (lvalid : List Bool) (ltags lprio : List Nat) : Bool × Nat :=
  match scanLines tag (lvalid.zip ltags) 0 none with
  | (some i, _) => (true, i)
  | (none, some k) => (false, k)
  | (none, none) => (false, firstMaxIdx lprio)

/-- One step of the `std::transform` over `local_priority` (lines 316-322):
position `j` is replaced by `p + 1` when `p <= local_priority[index] && p <
associativity`, reading `local_priority[index]` from the *current* state of
the span — the transform writes through the very range it reads, so once
position `index` itself has been processed, later positions compare against
its incremented value. -/
def prioStep (assoc idx : Nat) (ps : List Nat) (j : Nat) : List Nat :=
  let r := ps.getD idx 0
  let p := ps.getD j 0
  if p ≤ r ∧ p < assoc then ps.set j (p + 1) else ps

/-- The whole `std::transform` of lines 316-322, applying `prioStep` to the
positions in ascending order (the sequential left-to-right application used
by the common library implementations of a same-range `std::transform`). -/
def prioTransform (assoc idx : Nat) (ps : List Nat) : List Nat :=
  (List.range ps.length).foldl (prioStep assoc idx) ps

/-- Writes a segment back over `l` starting at `base`: the model of
mutating the `std::span`s of lines 271-275, which alias the global vectors
at offset `base = set * associativity`. -/
def splice (l : List α) (base : Nat) (seg : List α) : List α :=
  l.take base ++ seg ++ l.drop (base + seg.length)

/-- The triple returned by `CacheSim::probe` (line 333). -/
structure ProbeResult where
  hit : Bool
  dirty_wb : Bool
  cycles : Nat
deriving Repr, DecidableEq

/-- `CacheSim::probe` (lines 265-334).  Decomposes the address, scans the
probed set, selects the hit slot or a victim, updates tag/dirty/priority
state of the set, and computes the extra cycles.  The function returns the
`(hit, dirty_wb, cycles)` triple together with the updated simulator state.
Note that — exactly as in the source — the `valid` vector is never
written. -/
def CacheSim.probe (s : CacheSim) (type : Bool) (address : Nat) : ProbeResult × CacheSim :=
  let set := s.get_set address
  let tag := s.get_tag address
  let base := set * s.associativity
  let ltags := (s.tags.drop base).take s.associativity
  let ldirty := (s.dirty.drop base).take s.associativity
  let lvalid := (s.valid.drop base).take s.associativity
  let lprio := (s.priority.drop base).take s.associativity
  let hi := chooseIndex tag lvalid ltags lprio
  let hit := hi.1
  let index := hi.2
  let dirty_wb := if hit then false else ldirty.getD index false
  let ltags2 := if hit then ltags else ltags.set index tag
  let ldirty2 := ldirty.set index type
  let lprio2 := (prioTransform s.associativity index lprio).set index 0
  let cycles := (if hit then 0 else s.miss_penalty) + (if dirty_wb then s.dirty_wb_penalty else 0)
  ({ hit := hit, dirty_wb := dirty_wb, cycles := cycles },
   { s with
      tags := splice s.tags base ltags2
      dirty := splice s.dirty base ldirty2
      priority := splice s.priority base lprio2 })

/-- `CacheSim::update_stats` (lines 352-360). -/
def CacheSim.update_stats (s : CacheSim) (instructions : Int) (type hit dirty_wb : Bool)
    (cycles : Int) : CacheSim :=
  { s with
    mem_accesses_ := s.mem_accesses_ + 1
    writes_ := s.writes_ + (if type then 1 else 0)
    misses_ := s.misses_ + (if hit then 0 else 1)
    instructions_ := s.instructions_ + instructions
    dirty_wb_ := s.dirty_wb_ + (if dirty_wb then 1 else 0)
    cycles_ := s.cycles_ + cycles }

/-- One decoded trace record, the `(type, address, instructions)` triple
`parse_line` hands to the loop in `CacheSim::run` (lines 168-181). -/
structure Access where
  type : Bool
  address : Nat
  instructions : Int
deriving Repr, DecidableEq

/-- `CacheSim::run` (lines 168-181) on an already-decoded trace: probe each
access in order and accumulate the statistics. -/
def CacheSim.run (s : CacheSim) : List Access → CacheSim
  | [] => s
  | acc :: rest =>
    let pr := s.probe acc.type acc.address
    ((pr.2).update_stats acc.instructions acc.type pr.1.hit pr.1.dirty_wb
      (pr.1.cycles : Int)).run rest

/-- A concrete two-way, one-set cache state (`block_size = 16`,
`associativity = 2`, `capacity = 32`) whose single set is fully populated:
tags `[5, 7]`, both lines valid, priorities `[0, 1]` (slot 0 most recently
used).  Address `80` decomposes to set `0`, tag `5` and hits slot 0. -/
def twoWayHitState : CacheSim :=
  { block_size := 16, associativity := 2, capacity := 32, miss_penalty := 30,
    dirty_wb_penalty := 2, set_offset := 4, tag_offset := 4, set_mask := 0,
    tags := [5, 7], dirty := [false, false], valid := [true, true], priority := [0, 1],
    writes_ := 0, mem_accesses_ := 0, misses_ := 0, dirty_wb_ := 0,
    instructions_ := 0, cycles_ := 0 }

/-- Same two-way, one-set geometry as `twoWayHitState`, fully populated with
tags `[3, 9]`, priorities `[0, 1]`.  Address `48` decomposes to set `0`,
tag `3` and hits slot 0. -/
def fullSetPermState : CacheSim :=
  { block_size := 16, associativity := 2, capacity := 32, miss_penalty := 30,
    dirty_wb_penalty := 2, set_offset := 4, tag_offset := 4, set_mask := 0,
    tags := [3, 9], dirty := [false, false], valid := [true, true], priority := [0, 1],
    writes_ := 0, mem_accesses_ := 0, misses_ := 0, dirty_wb_ := 0,
    instructions_ := 0, cycles_ := 0 }

/-- Same two-way, one-set geometry, but with both lines invalid (the state
right after construction).  Address `80` decomposes to set `0`, tag `5`
and misses. -/
def emptySetState : CacheSim :=
  { block_size := 16, associativity := 2, capacity := 32, miss_penalty := 30,
    dirty_wb_penalty := 2, set_offset := 4, tag_offset := 4, set_mask := 0,
    tags := [0, 0], dirty := [false, false], valid := [false, false], priority := [0, 0],
    writes_ := 0, mem_accesses_ := 0, misses_ := 0, dirty_wb_ := 0,
    instructions_ := 0, cycles_ := 0 }

/-- Follows the spec's words (power-of-two geometry): `n` is a power of
two.  The bound `k < n` is harmless since `k < 2 ^ k` for every `k`. -/
def isPow2 (n : Nat) : Bool := decide (∃ k, k < n ∧ n = 2 ^ k)

/-- Follows the spec's words (§7, Configuration error): `block_size`,
`associativity` and `capacity` are powers of two and `capacity` is evenly
divisible by `block_size * associativity`.  This checker only states what
the spec demands of construction; the source constructor performs no such
check. -/
def configOK_spec (bs a c : Nat) : Bool :=
  isPow2 bs && isPow2 a && isPow2 c && decide (c % (bs * a) = 0)

/-- Model of an IEEE `double` as produced by the divisions in `dump_stats`:
either a finite rational or the non-finite value (NaN or an infinity) that
IEEE division by a zero divisor produces. -/
inductive DVal where
  | num (q : ℚ)
  | nonfinite
deriving DecidableEq

/-- C++ `double` division as used by `dump_stats` (lines 237 and 244): the
operands are exact small integers, so a nonzero divisor gives the exact
rational quotient, while a zero divisor gives a non-finite IEEE value
(`0.0 / 0.0` is NaN). -/
def ddiv (x y : Int) : DVal :=
  if y = 0 then DVal.nonfinite else DVal.num ((x : ℚ) / (y : ℚ))

/-- Line 237 of `dump_stats`: the unguarded
`(double)misses_ / (double)mem_accesses_ * 100.0`. -/
def CacheSim.miss_rate (s : CacheSim) : DVal :=
  match ddiv s.misses_ s.mem_accesses_ with
  | DVal.num q => DVal.num (q * 100)
  | DVal.nonfinite => DVal.nonfinite

/-- Line 244 of `dump_stats`: the unguarded
`(double)instructions_ / (double)cycles_`. -/
def CacheSim.ipc (s : CacheSim) : DVal :=
  ddiv s.instructions_ s.cycles_

/-! ## Arithmetic facts about the derived decoder parameters -/

theorem popcountAux_zero (fuel : Nat) : popcountAux fuel 0 = 0 := by
  cases fuel <;> rfl

theorem popcountAux_two_pow_sub_one :
    ∀ (k fuel : Nat), 2 ^ k - 1 ≤ fuel → popcountAux fuel (2 ^ k - 1) = k := by
  intro k
  induction k with
  | zero => intro fuel _; simpa using popcountAux_zero fuel
  | succ k ih =>
    intro fuel hfuel
    have h2 : 2 ^ (k + 1) = 2 ^ k * 2 := pow_succ 2 k
    have hpos : 1 ≤ 2 ^ k := Nat.one_le_two_pow
    match fuel with
    | 0 => omega
    | f + 1 =>
      have hne : 2 ^ (k + 1) - 1 ≠ 0 := by omega
      have hdiv : (2 ^ (k + 1) - 1) / 2 = 2 ^ k - 1 := by omega
      have hmod : (2 ^ (k + 1) - 1) % 2 = 1 := by omega
      have hle : 2 ^ k - 1 ≤ f := by omega
      simp only [popcountAux, if_neg hne, hdiv, hmod, ih f hle]

/-- `std::__popcount` of an all-ones mask recovers the bit count. -/
theorem popcount_two_pow_sub_one (k : Nat) : popcount (2 ^ k - 1) = k :=
  popcountAux_two_pow_sub_one k (2 ^ k - 1) le_rfl

/-- Masking with an all-ones mask is reduction modulo a power of two. -/
theorem land_two_pow_sub_one (x n : Nat) : x &&& (2 ^ n - 1) = x % 2 ^ n := by
  apply Nat.eq_of_testBit_eq
  intro i
  rw [Nat.testBit_land, Nat.testBit_two_pow_sub_one, Nat.testBit_mod_two_pow]
  cases h : x.testBit i <;> cases hd : decide (i < n) <;> simp [h, hd]

/-! ## Lemmas about the scan loop -/

/-- If every scanned line is invalid, the scan cannot report a hit. -/
theorem scanLines_fst_none_of_all_invalid (tag : Nat) :
    ∀ (lines : List (Bool × Nat)) (i : Nat) (inv : Option Nat),
      (∀ p ∈ lines, p.1 = false) → (scanLines tag lines i inv).1 = none := by
  intro lines
  induction lines with
  | nil => intro i inv _; rfl
  | cons hd tl ih =>
    intro i inv h
    obtain ⟨v, t⟩ := hd
    have hv : v = false := h (v, t) (List.mem_cons_self _ _)
    simp only [scanLines, if_pos hv]
    exact ih (i + 1) (some i) fun p hp => h p (List.mem_cons_of_mem _ hp)

/-- If every scanned line is valid, the recorded invalid slot is untouched. -/
theorem scanLines_snd_of_all_valid (tag : Nat) :
    ∀ (lines : List (Bool × Nat)) (i : Nat) (inv : Option Nat),
      (∀ p ∈ lines, p.1 = true) → (scanLines tag lines i inv).2 = inv := by
  intro lines
  induction lines with
  | nil => intro i inv _; rfl
  | cons hd tl ih =>
    intro i inv h
    obtain ⟨v, t⟩ := hd
    have hv : v = true := h (v, t) (List.mem_cons_self _ _)
    have hv' : ¬ (v = false) := by simp [hv]
    by_cases ht : t = tag
    · simp only [scanLines, if_neg hv', if_pos ht]
    · simp only [scanLines, if_neg hv', if_neg ht]
      exact ih (i + 1) inv fun p hp => h p (List.mem_cons_of_mem _ hp)

/-- Once an invalid slot `x ≤ i` has been recorded, the scan always ends
with some recorded slot, no earlier than `x`. -/
theorem scanLines_snd_some_ge (tag : Nat) :
    ∀ (lines : List (Bool × Nat)) (i x : Nat), x ≤ i →
      ∃ m, (scanLines tag lines i (some x)).2 = some m ∧ x ≤ m := by
  intro lines
  induction lines with
  | nil => intro i x hx; exact ⟨x, rfl, le_rfl⟩
  | cons hd tl ih =>
    intro i x hx
    obtain ⟨v, t⟩ := hd
    by_cases hv : v = false
    · simp only [scanLines, if_pos hv]
      obtain ⟨m, hm, him⟩ := ih (i + 1) i (Nat.le_succ i)
      exact ⟨m, hm, le_trans hx him⟩
    · by_cases ht : t = tag
      · simp only [scanLines, if_neg hv, if_pos ht]
        exact ⟨x, rfl, le_rfl⟩
      · simp only [scanLines, if_neg hv, if_neg ht]
        exact ih (i + 1) x (le_trans hx (Nat.le_succ i))

/-- If the scan finds no hit, then for every invalid position `k` of the
scanned lines the scan ends with a recorded invalid slot at least `i + k`:
the recorded slot is the *last* invalid slot. -/
theorem scanLines_none_invalid_le (tag : Nat) :
    ∀ (lines : List (Bool × Nat)) (i : Nat) (inv : Option Nat),
      (scanLines tag lines i inv).1 = none →
      ∀ k, k < lines.length → (lines.getD k (true, 0)).1 = false →
      ∃ m, (scanLines tag lines i inv).2 = some m ∧ i + k ≤ m := by
  intro lines
  induction lines with
  | nil => intro i inv _ k hk; simp at hk
  | cons hd tl ih =>
    intro i inv hnone k hk hkinv
    obtain ⟨v, t⟩ := hd
    by_cases hv : v = false
    · simp only [scanLines, if_pos hv] at hnone ⊢
      match k with
      | 0 =>
        obtain ⟨m, hm, him⟩ := scanLines_snd_some_ge tag tl (i + 1) i (Nat.le_succ i)
        exact ⟨m, hm, by omega⟩
      | k + 1 =>
        obtain ⟨m, hm, him⟩ := ih (i + 1) (some i) hnone k (by simpa using hk) (by simpa using hkinv)
        exact ⟨m, hm, by omega⟩
    · by_cases ht : t = tag
      · simp only [scanLines, if_neg hv, if_pos ht] at hnone
        exact absurd hnone (by simp)
      · simp only [scanLines, if_neg hv, if_neg ht] at hnone ⊢
        match k with
        | 0 => simp at hkinv; exact absurd hkinv hv
        | k + 1 =>
          obtain ⟨m, hm, him⟩ := ih (i + 1) inv hnone k (by simpa using hk) (by simpa using hkinv)
          exact ⟨m, hm, by omega⟩

/-- Invariant carrier for the recorded invalid slot: whatever slot the scan
reports was either carried in, or is one of the scanned invalid positions. -/
theorem scanLines_snd_prop (tag : Nat) (R : Nat → Prop) :
    ∀ (lines : List (Bool × Nat)) (i : Nat) (inv : Option Nat),
      (∀ m, inv = some m → R m) →
      (∀ k, k < lines.length → (lines.getD k (true, 0)).1 = false → R (i + k)) →
      ∀ m, (scanLines tag lines i inv).2 = some m → R m := by
  intro lines
  induction lines with
  | nil => intro i inv hinv _ m hm; exact hinv m hm
  | cons hd tl ih =>
    intro i inv hinv hpos m hm
    obtain ⟨v, t⟩ := hd
    by_cases hv : v = false
    · simp only [scanLines, if_pos hv] at hm
      refine ih (i + 1) (some i) ?_ ?_ m hm
      · intro m' hm'
        obtain rfl : i = m' := by simpa using hm'
        simpa using hpos 0 (by simp) (by simp [hv])
      · intro k hk hkinv
        have := hpos (k + 1) (by simpa using hk) (by simpa using hkinv)
        simpa [Nat.add_assoc, Nat.add_comm 1 k] using this
    · by_cases ht : t = tag
      · simp only [scanLines, if_neg hv, if_pos ht] at hm
        exact hinv m hm
      · simp only [scanLines, if_neg hv, if_neg ht] at hm
        refine ih (i + 1) inv hinv ?_ m hm
        intro k hk hkinv
        have := hpos (k + 1) (by simpa using hk) (by simpa using hkinv)
        simpa [Nat.add_assoc, Nat.add_comm 1 k] using this

/-! ## Lemmas about the first-maximum search -/

/-- Full characterisation of `maxElemFrom`: the returned value bounds every
element and the carried best value; the returned index is either the carried
one (with its value) or the absolute position of the first element strictly
exceeding everything before it. -/
theorem maxElemFrom_spec :
    ∀ (l : List Nat) (best bV i : Nat),
      (∀ k, k < l.length → l.getD k 0 ≤ (maxElemFrom best bV i l).2) ∧
      bV ≤ (maxElemFrom best bV i l).2 ∧
      (((maxElemFrom best bV i l).1 = best ∧ (maxElemFrom best bV i l).2 = bV) ∨
        ∃ k, k < l.length ∧ (maxElemFrom best bV i l).1 = i + k ∧
          l.getD k 0 = (maxElemFrom best bV i l).2 ∧ bV < (maxElemFrom best bV i l).2 ∧
          (∀ k', k' < k → l.getD k' 0 < (maxElemFrom best bV i l).2)) := by
  intro l
  induction l with
  | nil =>
    intro best bV i
    refine ⟨?_, le_rfl, Or.inl ⟨rfl, rfl⟩⟩
    intro k hk; simp at hk
  | cons x rest ih =>
    intro best bV i
    by_cases hx : bV < x
    · simp only [maxElemFrom, if_pos hx]
      obtain ⟨hbound, hbV, hcase⟩ := ih i x (i + 1)
      refine ⟨?_, le_of_lt (lt_of_lt_of_le hx hbV), ?_⟩
      · intro k hk
        match k with
        | 0 => simpa using hbV
        | k + 1 => simpa using hbound k (by simpa using hk)
      · rcases hcase with ⟨h1, h2⟩ | ⟨k, hk, h1, h2, h3, h4⟩
        · refine Or.inr ⟨0, by simp, by omega, by simpa using h2.symm, by omega, ?_⟩
          intro k' hk'; omega
        · refine Or.inr ⟨k + 1, by simpa using hk, by omega, by simpa using h2, by omega, ?_⟩
          intro k' hk'
          match k' with
          | 0 => simpa using h3
          | k' + 1 => simpa using h4 k' (by omega)
    · simp only [maxElemFrom, if_neg hx]
      obtain ⟨hbound, hbV, hcase⟩ := ih best bV (i + 1)
      refine ⟨?_, hbV, ?_⟩
      · intro k hk
        match k with
        | 0 => simp; omega
        | k + 1 => simpa using hbound k (by simpa using hk)
      · rcases hcase with ⟨h1, h2⟩ | ⟨k, hk, h1, h2, h3, h4⟩
        · exact Or.inl ⟨h1, h2⟩
        · refine Or.inr ⟨k + 1, by simpa using hk, by omega, by simpa using h2, h3, ?_⟩
          intro k' hk'
          match k' with
          | 0 => simp; omega
          | k' + 1 => simpa using h4 k' (by omega)

/-- `firstMaxIdx` of a non-empty list is a valid position holding a maximal
value, and every earlier position holds a strictly smaller value: it is the
index `std::ranges::max_element` reports, the first maximum. -/
theorem firstMaxIdx_spec (l : List Nat) (hl : l ≠ []) :
    firstMaxIdx l < l.length ∧
    (∀ j, j < l.length → l.getD j 0 ≤ l.getD (firstMaxIdx l) 0) ∧
    (∀ j, j < firstMaxIdx l → l.getD j 0 < l.getD (firstMaxIdx l) 0) := by
  match l with
  | [] => exact absurd rfl hl
  | x :: rest =>
    obtain ⟨hbound, hbV, hcase⟩ := maxElemFrom_spec rest 0 x 1
    have hfmi : firstMaxIdx (x :: rest) = (maxElemFrom 0 x 1 rest).1 := rfl
    have hval : (x :: rest).getD (firstMaxIdx (x :: rest)) 0 = (maxElemFrom 0 x 1 rest).2 := by
      rcases hcase with ⟨h1, h2⟩ | ⟨k, hk, h1, h2, h3, h4⟩
      · rw [hfmi, h1]; simpa using h2.symm
      · rw [hfmi, h1]
        have : 1 + k = k + 1 := by omega
        rw [this]; simpa using h2
    rcases hcase with ⟨h1, h2⟩ | ⟨k, hk, h1, h2, h3, h4⟩
    · refine ⟨by rw [hfmi, h1]; simp, ?_, ?_⟩
      · intro j hj
        rw [hval]
        match j with
        | 0 => simpa using hbV
        | j + 1 => simpa using hbound j (by simpa using hj)
      · intro j hj
        rw [hfmi, h1] at hj; omega
    · refine ⟨by rw [hfmi, h1]; simp; omega, ?_, ?_⟩
      · intro j hj
        rw [hval]
        match j with
        | 0 => simpa using hbV
        | j + 1 => simpa using hbound j (by simpa using hj)
      · intro j hj
        rw [hval]
        rw [hfmi, h1] at hj
        match j with
        | 0 => simpa using h3
        | j + 1 => exact by simpa using h4 j (by omega)

/-! ## Lemmas about victim selection and `probe` -/

/-- When the scan reports no hit, `chooseIndex` reports a miss. -/
theorem chooseIndex_fst_eq_false (tag : Nat) (lvalid : List Bool) (ltags lprio : List Nat)
    (h : (scanLines tag (lvalid.zip ltags) 0 none).1 = none) :
    (chooseIndex tag lvalid ltags lprio).1 = false := by
  unfold chooseIndex
  rcases hsc : scanLines tag (lvalid.zip ltags) 0 none with ⟨o1, o2⟩
  rw [hsc] at h
  simp only at h
  subst h
  cases o2 <;> rfl

/-- Conversely, a reported miss means the scan found no hit. -/
theorem chooseIndex_miss_scan_none (tag : Nat) (lvalid : List Bool) (ltags lprio : List Nat)
    (h : (chooseIndex tag lvalid ltags lprio).1 = false) :
    (scanLines tag (lvalid.zip ltags) 0 none).1 = none := by
  unfold chooseIndex at h
  rcases hsc : scanLines tag (lvalid.zip ltags) 0 none with ⟨o1, o2⟩
  rw [hsc] at h
  cases o1 with
  | none => rfl
  | some i => simp at h

/-- `probe` never writes the `valid` vector. -/
theorem probe_preserves_valid (s : CacheSim) (type : Bool) (address : Nat) :
    ((s.probe type address).2).valid = s.valid := rfl

/-- `update_stats` never writes the `valid` vector. -/
theorem update_stats_preserves_valid (s : CacheSim) (n : Int) (type hit dwb : Bool) (cy : Int) :
    (s.update_stats n type hit dwb cy).valid = s.valid := rfl

/-- `run` never writes the `valid` vector, whatever the trace. -/
theorem run_preserves_valid : ∀ (tr : List Access) (s : CacheSim), (s.run tr).valid = s.valid := by
  intro tr
  induction tr with
  | nil => intro s; rfl
  | cons acc rest ih =>
    intro s
    show ((((s.probe acc.type acc.address).2).update_stats acc.instructions acc.type
      (s.probe acc.type acc.address).1.hit (s.probe acc.type acc.address).1.dirty_wb
      ((s.probe acc.type acc.address).1.cycles : Int)).run rest).valid = s.valid
    rw [ih]
    rfl

/-- `probe`'s hit flag is `chooseIndex`'s hit flag on the probed set. -/
theorem probe_hit_eq_chooseIndex (s : CacheSim) (type : Bool) (address : Nat) :
    (s.probe type address).1.hit =
      (chooseIndex (s.get_tag address)
        ((s.valid.drop (s.get_set address * s.associativity)).take s.associativity)
        ((s.tags.drop (s.get_set address * s.associativity)).take s.associativity)
        ((s.priority.drop (s.get_set address * s.associativity)).take s.associativity)).1 := rfl

/-! ## The claims -/

/-- Claim C1 (refuted by the code — the code never sets a line's `valid`
flag, so no probe can ever hit): on a fresh direct-mapped cache
(`block_size = 16`, `associativity = 1`, `capacity = 64`), probing address
`64` installs its tag (`1`) in set 0, yet a second probe of the very same
address still returns `hit = false`, where the claim demands `hit = true`. -/
theorem claim_C1_second_probe_still_misses :
    (((CacheSim.init 16 1 64 30 2).probe false 64).2).tags.getD 0 0 =
      (CacheSim.init 16 1 64 30 2).get_tag 64 ∧
    ((((CacheSim.init 16 1 64 30 2).probe false 64).2).probe false 64).1.hit = false := by
  decide

/-- Claim C2: no operation ever sets a line's `valid` flag — `probe` and
`run` preserve the `valid` vector unchanged across every access sequence,
construction initialises every flag to `false`, and consequently a probe of
a state whose lines are all invalid returns `hit = false` (the
tag-comparison branch is unreachable). -/
theorem claim_C2_valid_stays_false_and_probe_never_hits
    (s : CacheSim) (type : Bool) (addr : Nat) (tr : List Access)
    (bs a c mp wbp : Nat) :
    ((s.probe type addr).2.valid = s.valid) ∧
    ((s.run tr).valid = s.valid) ∧
    (∀ v ∈ (CacheSim.init bs a c mp wbp).valid, v = false) ∧
    ((∀ v ∈ s.valid, v = false) → (s.probe type addr).1.hit = false) := by
  refine ⟨probe_preserves_valid s type addr, run_preserves_valid tr s, ?_, ?_⟩
  · intro v hv
    exact List.eq_of_mem_replicate hv
  · intro hall
    rw [probe_hit_eq_chooseIndex]
    apply chooseIndex_fst_eq_false
    apply scanLines_fst_none_of_all_invalid
    intro p hp
    obtain ⟨v, t⟩ := p
    have h1 := (List.of_mem_zip hp).1
    have h2 : v ∈ s.valid := List.drop_subset _ _ (List.take_subset _ _ h1)
    exact hall v h2

/-- Witness for C2 at a concrete fresh cache and trace. -/
theorem claim_C2_witness :
    ((CacheSim.init 16 1 64 30 2).probe false 0).1.hit = false :=
  (claim_C2_valid_stays_false_and_probe_never_hits
    (CacheSim.init 16 1 64 30 2) false 0 [] 16 1 64 30 2).2.2.2 (by decide)

/-- Claim C3 (refuted by the code): on the fully-populated two-way set with
priorities `[0, 1]`, a hit on slot 0 (`old_rank = 0`) must, per the claim,
leave slot 1 (priority `1 > old_rank`) unchanged and end with `[0, 1]`; the
in-place `std::transform` instead first increments slot 0's own entry and
then compares slot 1 against the incremented value, producing `[0, 2]` —
priority `2 = associativity` escapes the documented rank range. -/
theorem claim_C3_priority_update_diverges :
    twoWayHitState.priority = [0, 1] ∧
    (twoWayHitState.probe false 80).1.hit = true ∧
    (twoWayHitState.probe false 80).2.priority = [0, 2] := by
  decide

/-- Claim C4 (refuted by the code): the fully-populated two-way set of
`fullSetPermState` has priority multiset `{0, 1}` — a permutation of
`{0, ..., associativity-1}` — and every line valid, yet after a hit on
slot 0 the priorities are `[0, 2]`, no longer a permutation of `{0, 1}`. -/
theorem claim_C4_permutation_not_preserved :
    fullSetPermState.valid = [true, true] ∧
    fullSetPermState.priority.Perm (List.range 2) ∧
    (fullSetPermState.probe false 48).1.hit = true ∧
    (fullSetPermState.probe false 48).2.priority = [0, 2] ∧
    ¬ (fullSetPermState.probe false 48).2.priority.Perm (List.range 2) := by
  decide

/-- Claim C8: `probe`'s cycle count is exactly the miss penalty when the
access missed plus the dirty-writeback penalty when a dirty writeback was
reported — in particular a hit without writeback costs `0` and a miss with
a dirty victim costs `miss_penalty + dirty_wb_penalty`. -/
theorem claim_C8_cycle_accounting (s : CacheSim) (type : Bool) (addr : Nat) :
    (s.probe type addr).1.cycles =
      (if (s.probe type addr).1.hit then 0 else s.miss_penalty) +
      (if (s.probe type addr).1.dirty_wb then s.dirty_wb_penalty else 0) := rfl

/-- Claim C10 (refuted by the code): after a zero-access run the code
divides anyway — `dump_stats` computes `0.0 / 0.0` (NaN) for both the miss
rate and the IPC and prints it as a number; nothing surfaces an explicit
"undefined" result. -/
theorem claim_C10_zero_access_run_divides_by_zero :
    ((CacheSim.init 16 1 64 30 2).run []).mem_accesses_ = 0 ∧
    ((CacheSim.init 16 1 64 30 2).run []).cycles_ = 0 ∧
    ((CacheSim.init 16 1 64 30 2).run []).miss_rate = DVal.nonfinite ∧
    ((CacheSim.init 16 1 64 30 2).run []).ipc = DVal.nonfinite := by
  exact ⟨rfl, rfl, rfl, rfl⟩

/-- Claim C9 counterexample (the claim demands rejection of invalid
configurations at construction time): `block_size = 24` is not a power of
two, so the configuration is invalid, yet the constructor builds a
4-line cache (`96 / 24`) and a subsequent probe is processed normally —
nothing is rejected or aborted. -/
theorem claim_C9_invalid_config_accepted :
    configOK_spec 24 2 96 = false ∧
    (CacheSim.init 24 2 96 30 2).tags.length = 4 ∧
    ((CacheSim.init 24 2 96 30 2).probe false 0).1.hit = false := by
  decide

/-- Claim C9 (amended): construction performs no validation — every
configuration, invalid ones included, yields a simulator with
`capacity / block_size` lines, all invalid, and simulation proceeds. -/
theorem claim_C9_no_validation (bs a c mp wbp : Nat)
    (h : configOK_spec bs a c = false) :
    (CacheSim.init bs a c mp wbp).tags.length = c / bs ∧
    (CacheSim.init bs a c mp wbp).valid = List.replicate (c / bs) false :=
  ⟨by simp [CacheSim.init], rfl⟩

/-- Witness for the amended C9 at the invalid configuration `24/2/96`. -/
theorem claim_C9_no_validation_witness :
    configOK_spec 24 2 96 = false ∧
    ((CacheSim.init 24 2 96 30 2).tags.length = 96 / 24 ∧
     (CacheSim.init 24 2 96 30 2).valid = List.replicate (96 / 24) false) :=
  ⟨by decide, claim_C9_no_validation 24 2 96 30 2 (by decide)⟩

/-- Claim C5 counterexample: with both lines of the probed set invalid, the
claim picks the FIRST invalid slot (slot 0), but the scan overwrites
`invalid_index` on every invalid line, so the miss fills slot 1: the new
tag `5` lands in `tags[1]` and slot 0 keeps its old tag. -/
theorem claim_C5_first_invalid_refuted :
    emptySetState.valid = [false, false] ∧
    (emptySetState.probe false 80).1.hit = false ∧
    (emptySetState.probe false 80).2.tags = [0, 5] := by
  decide

/-- Claim C5 (amended): on a miss in a set containing an invalid slot, the
victim is the LAST invalid slot in scan order — for every invalid slot `j`,
the chosen index is itself invalid and is `≥ j`; in particular no valid
line is ever evicted while an invalid slot exists. -/
theorem claim_C5_last_invalid_victim (tag : Nat) (lvalid : List Bool) (ltags lprio : List Nat)
    (hlen : lvalid.length = ltags.length)
    (hmiss : (chooseIndex tag lvalid ltags lprio).1 = false)
    (j : Nat) (hj : j < lvalid.length) (hinv : lvalid.getD j true = false) :
    lvalid.getD (chooseIndex tag lvalid ltags lprio).2 true = false ∧
    j ≤ (chooseIndex tag lvalid ltags lprio).2 := by
  have hzlen : (lvalid.zip ltags).length = lvalid.length := by
    rw [List.length_zip, hlen, Nat.min_self]
  have hget : ∀ k, k < (lvalid.zip ltags).length →
      ((lvalid.zip ltags).getD k (true, 0)).1 = lvalid.getD k true := by
    intro k hk
    have hk1 : k < lvalid.length := hzlen ▸ hk
    rw [List.getD_eq_getElem _ _ hk, List.getD_eq_getElem _ _ hk1, List.getElem_zip]
  have hscan := chooseIndex_miss_scan_none tag lvalid ltags lprio hmiss
  have hjz : j < (lvalid.zip ltags).length := by omega
  obtain ⟨m, hm, hjm⟩ := scanLines_none_invalid_le tag (lvalid.zip ltags) 0 none hscan j hjz
    (by rw [hget j hjz]; exact hinv)
  have hminv : lvalid.getD m true = false := by
    refine scanLines_snd_prop tag (fun m' => lvalid.getD m' true = false)
      (lvalid.zip ltags) 0 none ?_ ?_ m hm
    · intro m' hm'
      exact absurd hm' (by simp)
    · intro k hk hkinv
      rw [hget k hk] at hkinv
      simpa using hkinv
  have hci : chooseIndex tag lvalid ltags lprio = (false, m) := by
    unfold chooseIndex
    rcases hsc : scanLines tag (lvalid.zip ltags) 0 none with ⟨o1, o2⟩
    rw [hsc] at hscan hm
    simp only at hscan hm
    subst hscan
    subst hm
    rfl
  rw [hci]
  exact ⟨hminv, by omega⟩

/-- Witness for the amended C5: a two-line set, both lines invalid, tag `5`;
the chosen victim is an invalid slot no earlier than slot 0. -/
theorem claim_C5_last_invalid_victim_witness :
    [false, false].getD (chooseIndex 5 [false, false] [0, 0] [0, 0]).2 true = false ∧
    0 ≤ (chooseIndex 5 [false, false] [0, 0] [0, 0]).2 :=
  claim_C5_last_invalid_victim 5 [false, false] [0, 0] [0, 0] (by decide) (by decide)
    0 (by decide) (by decide)

/-- Claim C6: on a miss in a set with no invalid line, the victim slot is
the first maximum of the set's priorities — it is a valid position, its
priority is maximal, and every earlier slot has strictly smaller priority
(so ties go to the lowest slot index, `std::ranges::max_element`-style). -/
theorem claim_C6_full_set_victim_is_first_max (tag : Nat)
    (lvalid : List Bool) (ltags lprio : List Nat)
    (hne : lvalid ≠ [])
    (hlenp : lprio.length = lvalid.length)
    (hval : ∀ v ∈ lvalid, v = true)
    (hmiss : (chooseIndex tag lvalid ltags lprio).1 = false) :
    (chooseIndex tag lvalid ltags lprio).2 < lprio.length ∧
    (∀ j, j < lprio.length →
      lprio.getD j 0 ≤ lprio.getD (chooseIndex tag lvalid ltags lprio).2 0) ∧
    (∀ j, j < (chooseIndex tag lvalid ltags lprio).2 →
      lprio.getD j 0 < lprio.getD (chooseIndex tag lvalid ltags lprio).2 0) := by
  have hscan := chooseIndex_miss_scan_none tag lvalid ltags lprio hmiss
  have hsnd : (scanLines tag (lvalid.zip ltags) 0 none).2 = none := by
    apply scanLines_snd_of_all_valid
    intro p hp
    obtain ⟨v, t⟩ := p
    exact hval v (List.of_mem_zip hp).1
  have hci : chooseIndex tag lvalid ltags lprio = (false, firstMaxIdx lprio) := by
    unfold chooseIndex
    rcases hsc : scanLines tag (lvalid.zip ltags) 0 none with ⟨o1, o2⟩
    rw [hsc] at hscan hsnd
    simp only at hscan hsnd
    subst hscan
    subst hsnd
    rfl
  have hlne : lprio ≠ [] := by
    intro h
    rw [h] at hlenp
    exact hne (List.eq_nil_of_length_eq_zero hlenp.symm)
  obtain ⟨h1, h2, h3⟩ := firstMaxIdx_spec lprio hlne
  rw [hci]
  exact ⟨h1, h2, h3⟩

/-- Witness for C6: a full three-line set with priorities `[1, 0, 1]` and a
missing tag; the victim is slot 0, the first of the two maximal slots. -/
theorem claim_C6_witness :
    (chooseIndex 9 [true, true, true] [5, 7, 8] [1, 0, 1]).2 < 3 ∧
    (∀ j, j < 3 →
      ([1, 0, 1] : List Nat).getD j 0 ≤
        ([1, 0, 1] : List Nat).getD (chooseIndex 9 [true, true, true] [5, 7, 8] [1, 0, 1]).2 0) ∧
    (∀ j, j < (chooseIndex 9 [true, true, true] [5, 7, 8] [1, 0, 1]).2 →
      ([1, 0, 1] : List Nat).getD j 0 <
        ([1, 0, 1] : List Nat).getD (chooseIndex 9 [true, true, true] [5, 7, 8] [1, 0, 1]).2 0) :=
  claim_C6_full_set_victim_is_first_max 9 [true, true, true] [5, 7, 8] [1, 0, 1]
    (by decide) (by decide) (by decide) (by decide)

/-- Claim C7: with power-of-two geometry the decoder computes
`set = (address >> offset_bits) mod sets` and `tag = address >> (offset_bits
+ set_bits)`; concretely, with `block_size = 16`, `associativity = 1`,
`capacity = 16384`, the addresses `0x0` and `0x4000` decode to the same set
index and different tags. -/
theorem claim_C7_decoder (ob sb a c mp wbp addr : Nat)
    (hsets : c / (2 ^ ob * a) = 2 ^ sb) :
    ((CacheSim.init (2 ^ ob) a c mp wbp).get_set addr = (addr >>> ob) % 2 ^ sb ∧
     (CacheSim.init (2 ^ ob) a c mp wbp).get_tag addr = addr >>> (ob + sb)) ∧
    ((CacheSim.init 16 1 16384 30 2).get_set 0 = (CacheSim.init 16 1 16384 30 2).get_set 0x4000 ∧
     (CacheSim.init 16 1 16384 30 2).get_tag 0 ≠ (CacheSim.init 16 1 16384 30 2).get_tag 0x4000) := by
  refine ⟨⟨?_, ?_⟩, by decide, by decide⟩
  · show (addr >>> popcount (2 ^ ob - 1)) &&& (c / (2 ^ ob * a) - 1) = _
    rw [hsets, popcount_two_pow_sub_one, land_two_pow_sub_one]
  · show addr >>> (popcount (2 ^ ob - 1) + popcount (c / (2 ^ ob * a) - 1)) = _
    rw [hsets, popcount_two_pow_sub_one, popcount_two_pow_sub_one]

/-- Witness for C7 at the spec's concrete scenario
(`block_size = 2^4`, 1024 sets, address 5000). -/
theorem claim_C7_decoder_witness :
    ((CacheSim.init (2 ^ 4) 1 16384 30 2).get_set 5000 = (5000 >>> 4) % 2 ^ 10 ∧
     (CacheSim.init (2 ^ 4) 1 16384 30 2).get_tag 5000 = 5000 >>> (4 + 10)) ∧
    ((CacheSim.init 16 1 16384 30 2).get_set 0 = (CacheSim.init 16 1 16384 30 2).get_set 0x4000 ∧
     (CacheSim.init 16 1 16384 30 2).get_tag 0 ≠ (CacheSim.init 16 1 16384 30 2).get_tag 0x4000) :=
  claim_C7_decoder 4 10 1 16384 30 2 5000 (by decide)
